import Mathlib

/-!
Verification development for the tinybin binary serialization engine.

The Lean definitions below are shallow embeddings of the Go source:
bytes are `Nat` values (below 256 by convention), machine integers are
`Nat`/`Int` with explicit reduction modulo powers of two where the Go
code wraps, fallible functions return `Except`, and the external
tinyreflect type-introspection provider is represented by an inductive
type universe in which the StructID of a struct type is carried inside
the type itself (tinyreflect assigns ids independently of any engine).
-/

namespace TinyBin

/-! ## Wire primitives: LEB128 varints (varint.go) -/

/-- Error outcomes of varint decoding (errors.go: ErrVarintOverflow and
ErrVarintTruncated). -/
inductive VErr where
  | overflow
  | truncated
deriving DecidableEq, Repr

/-- Shared loop of decodeVarint and decodeVarint64 (varint.go).
`limit` is the byte-count bound (5 for 32-bit, 10 for 64-bit), `width`
the bit width of the target integer; `i` counts consumed bytes, `x` the
accumulated value and `s` the current shift, exactly as in the Go loop
`for i, b := range buf`. -/
def decodeVarintLoop (limit width : Nat) : List Nat → Nat → Nat → Nat → Except VErr (Nat × Nat)
  | [], _, _, _ => .error .truncated
  | b :: rest, i, x, s =>
    if i = limit then .error .overflow
    else if b < 0x80 then .ok ((x ||| b <<< s) % 2 ^ width, i + 1)
    else decodeVarintLoop limit width rest (i + 1) ((x ||| (b &&& 0x7f) <<< s) % 2 ^ width) (s + 7)

/-- decodeVarint (varint.go): LEB128 decode of a uint32, at most 5 bytes. -/
def decodeVarint (buf : List Nat) : Except VErr (Nat × Nat) :=
  decodeVarintLoop 5 32 buf 0 0 0

/-- decodeVarint64 (varint.go): LEB128 decode of a uint64, at most 10 bytes. -/
def decodeVarint64 (buf : List Nat) : Except VErr (Nat × Nat) :=
  decodeVarintLoop 10 64 buf 0 0 0

/-- encodeVarint (varint.go): LEB128 encode of a uint32 value. -/
def encodeVarint (x : Nat) : List Nat :=
  if 0x80 ≤ x then (x % 256 ||| 0x80) :: encodeVarint (x >>> 7) else [x]
decreasing_by
  simp only [Nat.shiftRight_eq_div_pow]
  omega

/-- WriteUvarint of the Encoder (same LEB128 loop, uint64 input). -/
def writeUvarintBytes (x : Nat) : List Nat :=
  if 0x80 ≤ x then (x % 256 ||| 0x80) :: writeUvarintBytes (x >>> 7) else [x]
decreasing_by
  simp only [Nat.shiftRight_eq_div_pow]
  omega

/-! ## Fixed-width little-endian writes (WriteUint16/32/64 of the Encoder,
binary.LittleEndian.PutUint32 in part_015) -/

/-- Little-endian bytes of a 16-bit quantity. -/
def le16 (x : Nat) : List Nat := [x % 256, x / 2 ^ 8 % 256]

/-- Little-endian bytes of a 32-bit quantity. -/
def le32 (x : Nat) : List Nat := [x % 256, x / 2 ^ 8 % 256, x / 2 ^ 16 % 256, x / 2 ^ 24 % 256]

/-- Little-endian bytes of a 64-bit quantity. -/
def le64 (x : Nat) : List Nat :=
  [x % 256, x / 2 ^ 8 % 256, x / 2 ^ 16 % 256, x / 2 ^ 24 % 256,
   x / 2 ^ 32 % 256, x / 2 ^ 40 % 256, x / 2 ^ 48 % 256, x / 2 ^ 56 % 256]

/-- binary.LittleEndian.Uint32: reassemble a 32-bit value from four bytes. -/
def leUint32 (b0 b1 b2 b3 : Nat) : Nat :=
  b0 + b1 * 2 ^ 8 + b2 * 2 ^ 16 + b3 * 2 ^ 24

/-- WriteFloat32 of the Encoder (part_016 / part_017): the IEEE-754 bit
pattern of the value, obtained from math.Float32bits, written through
WriteUint32 as a fixed 4-byte little-endian integer. `bits` is the
Float32bits image of the float value. -/
def writeFloat32Bytes (bits : Nat) : List Nat := le32 (bits % 2 ^ 32)

/-- WriteFloat64 of the Encoder: Float64bits written through WriteUint64. -/
def writeFloat64Bytes (bits : Nat) : List Nat := le64 (bits % 2 ^ 64)

/-! ## The tinyreflect type model and the struct registry
(register.go, tinybin.go, types.go)

A struct type carries its tinyreflect StructID: in the Go library the
StructID of a type is computed by tinyreflect from the type alone and
does not depend on any TinyBin engine or registration order. -/

/-- Kind classification of a non-struct field, after tinystring K. -/
inductive PKind where
  | int | uint | float | boolean | str | slice | array | pointer | other
deriving DecidableEq, Repr

mutual
/-- A tinyreflect type: a primitive-like kind, or a struct with its
tinyreflect StructID, name and declared field list. -/
inductive Ty where
  | prim (k : PKind)
  | strct (sid : Nat) (nm : String) (fields : Flds)
deriving DecidableEq, Repr

/-- Declared field list of a struct type (name and field type, in
declaration order). -/
inductive Flds where
  | nil
  | cons (nm : String) (ty : Ty) (rest : Flds)
deriving DecidableEq, Repr
end

/-- Field kind as stored in stField.typeKind. -/
inductive TKind where
  | ofPrim (k : PKind)
  | ofStruct
deriving DecidableEq, Repr

/-- Kind of a type (tinyreflect Type.Kind). -/
def Ty.kind : Ty → TKind
  | .prim k => .ofPrim k
  | .strct _ _ _ => .ofStruct

/-- stField (types.go): metadata for a single struct field. -/
structure stField where
  name : String
  typeKind : TKind
deriving DecidableEq, Repr

/-- stObject (types.go): cached metadata for a single struct type.
The stID field is documented in types.go as the index in the stObjects
slice, but register.go fills it with the tinyreflect StructID. -/
structure stObject where
  stID : Nat
  stName : String
  stFields : List stField
deriving DecidableEq, Repr

/-- Registration errors (register.go / errors.go). -/
inductive RErr where
  | inputNotStruct
  | maxDepthExceeded
  | invalidFields
deriving DecidableEq, Repr

mutual
/-- analyzeStruct (register.go): depth check, dedup by StructID, then a
walk of the declared fields that recursively registers struct-typed
fields before appending the struct descriptor itself. -/
def analyzeStruct (maxD : Nat) (t : Ty) (depth : Nat) (st : List stObject) :
    Except RErr (List stObject) :=
  if depth > maxD then .error .maxDepthExceeded
  else
    match t with
    | .prim _ => .error .invalidFields
    | .strct sid nm fields =>
      if st.any (fun o => o.stID == sid) then .ok st
      else
        match analyzeFlds maxD fields depth st [] with
        | .error e => .error e
        | .ok (st2, flds) => .ok (st2 ++ [⟨sid, nm, flds⟩])

/-- Field loop of analyzeStruct: builds the stField list in declaration
order, recursing into struct-typed fields at depth + 1. -/
def analyzeFlds (maxD : Nat) (fs : Flds) (depth : Nat) (st : List stObject)
    (acc : List stField) : Except RErr (List stObject × List stField) :=
  match fs with
  | .nil => .ok (st, acc)
  | .cons nm fty rest =>
    let fld : stField := ⟨nm, fty.kind⟩
    match fty with
    | .strct _ _ _ =>
      match analyzeStruct maxD fty (depth + 1) st with
      | .error e => .error e
      | .ok st2 => analyzeFlds maxD rest depth st2 (acc ++ [fld])
    | .prim _ => analyzeFlds maxD rest depth st (acc ++ [fld])
end

/-- The TinyBin handler state (tinybin.go): configuration plus the
registered struct descriptors. -/
structure TB where
  maxDepth : Nat
  stObjects : List stObject
deriving DecidableEq, Repr

/-- New (tinybin.go): optional configuration, default MaxDepth 8. -/
def newTB (cfg : Option Nat) : TB :=
  match cfg with
  | none => ⟨8, []⟩
  | some m => ⟨m, []⟩

/-- AddStructs (register.go): each input must be a struct kind; each is
analyzed starting at depth 1. -/
def addStructs (tb : TB) (ts : List Ty) : Except RErr TB :=
  match ts with
  | [] => .ok tb
  | t :: rest =>
    match t with
    | .prim _ => .error .inputNotStruct
    | .strct _ _ _ =>
      match analyzeStruct tb.maxDepth t 1 tb.stObjects with
      | .error e => .error e
      | .ok st2 => addStructs ⟨tb.maxDepth, st2⟩ rest

mutual
/-- Struct-nesting depth of a type: the length of the longest chain of
directly nested struct fields (the quantity bounded by analyzeStruct;
non-struct fields, including slices of structs, are not walked). -/
def structDepth : Ty → Nat
  | .prim _ => 0
  | .strct _ _ fields => 1 + fldsDepth fields

/-- Maximal struct-nesting depth over a field list. -/
def fldsDepth : Flds → Nat
  | .nil => 0
  | .cons _ t rest => max (structDepth t) (fldsDepth rest)
end

mutual
/-- All StructIDs of struct types occurring in a type. -/
def sidsOf : Ty → List Nat
  | .prim _ => []
  | .strct sid _ fields => sid :: sidsOfF fields

/-- All StructIDs of struct types occurring in a field list. -/
def sidsOfF : Flds → List Nat
  | .nil => []
  | .cons _ t rest => sidsOf t ++ sidsOfF rest
end

/-- Boolean success test for Except. -/
def isOkB {ε α : Type} : Except ε α → Bool
  | .ok _ => true
  | .error _ => false

/-! ## The value universe and the reflection-free encoder (part_015)

part_015 encodes through tinyreflect Value and Interface() type
assertions; the Val universe below mirrors the runtime values that the
type switch of encodeField distinguishes. A float value is represented
by the two integers Go can extract from it: its IEEE-754 bit pattern
(math.FloatNNbits) and its integer truncation (the Go conversion
uintNN(v)), since the encoder only ever uses those images. -/

inductive Val where
  | vBool (b : Bool)
  | vInt8 (i : Int)
  | vInt16 (i : Int)
  | vInt32 (i : Int)
  | vInt64 (i : Int)
  | vUint8 (u : Nat)
  | vUint16 (u : Nat)
  | vUint32 (u : Nat)
  | vUint64 (u : Nat)
  | vFloat32 (bits trunc : Nat)
  | vFloat64 (bits trunc : Nat)
  | vString (bytes : List Nat)
  | vStrct (sid : Nat) (fields : List Val)
  | vSlice (elems : List Val)

/-- Encoding errors of the part_015 encoder. -/
inductive EErr where
  | typeNotFound
  | emptySlice
  | sliceElemNotStruct
  | typeNotSupported
deriving DecidableEq, Repr

/-- Two's-complement image of a Go signed integer in w bits (the value
uintw(v) that the Go conversions produce before byte extraction). -/
def toUint (i : Int) (w : Nat) : Nat := (i % (2 ^ w : Nat)).toNat

mutual
/-- encodeValue (part_015): dispatch on the kind of the value. -/
def encodeValue : Val → Except EErr (List Nat)
  | .vStrct _ fields => encodeStructFields fields
  | .vSlice elems => encodeSliceElems elems
  | v => encodeField v

/-- encodeStruct (part_015): concatenate the encodings of the fields in
declaration order, each through encodeField. -/
def encodeStructFields : List Val → Except EErr (List Nat)
  | [] => .ok []
  | f :: rest => do
    let a ← encodeField f
    let b ← encodeStructFields rest
    .ok (a ++ b)

/-- encodeSlice (part_015): concatenate the encodings of the elements
(no length is written here; the count lives in the envelope header). -/
def encodeSliceElems : List Val → Except EErr (List Nat)
  | [] => .ok []
  | e :: rest => do
    let a ← encodeValue e
    let b ← encodeSliceElems rest
    .ok (a ++ b)

/-- encodeField (part_015): the Interface() type switch. Signed and
unsigned integers are written in fixed little-endian width, strings as
a 32-bit LEB128 length plus raw bytes, and the two float cases convert
the value numerically (uint32(val) / uint64(val)) before the
little-endian write. -/
def encodeField : Val → Except EErr (List Nat)
  | .vBool b => .ok (if b then [1] else [0])
  | .vInt8 i => .ok [toUint i 8]
  | .vInt16 i => .ok (le16 (toUint i 16))
  | .vInt32 i => .ok (le32 (toUint i 32))
  | .vInt64 i => .ok (le64 (toUint i 64))
  | .vUint8 u => .ok [u % 256]
  | .vUint16 u => .ok (le16 (u % 2 ^ 16))
  | .vUint32 u => .ok (le32 (u % 2 ^ 32))
  | .vUint64 u => .ok (le64 (u % 2 ^ 64))
  | .vFloat32 _bits trunc => .ok (le32 (trunc % 2 ^ 32))
  | .vFloat64 _bits trunc => .ok (le64 (trunc % 2 ^ 64))
  | .vString bs => .ok (encodeVarint (bs.length % 2 ^ 32) ++ bs)
  | .vStrct _ fields => encodeStructFields fields
  | .vSlice elems => encodeSliceElems elems
end

/-- analyzeDataType (part_015): a bare struct has count 1; a slice must
be non-empty and its first element must be a struct. Returns the
StructID of the struct type and the count. -/
def analyzeDataType : Val → Except EErr (Nat × Nat)
  | .vStrct sid _ => .ok (sid, 1)
  | .vSlice elems =>
    match elems with
    | [] => .error .emptySlice
    | e :: _ =>
      match e with
      | .vStrct sid _ => .ok (sid, elems.length)
      | _ => .error .sliceElemNotStruct
  | _ => .error .typeNotSupported

/-- EncodeToBytes (part_015): resolve the StructID, require it to be
registered, then write the header `[1][0][4-byte LE type id][uvarint
count]` followed by the recursively encoded payload. Returns the bytes
and the type id. -/
def encodeToBytes (st : List stObject) (data : Val) : Except EErr (List Nat × Nat) := do
  let (sid, count) ← analyzeDataType data
  match st.find? (fun o => o.stID == sid) with
  | none => .error .typeNotFound
  | some o => do
    let payload ← encodeValue data
    .ok ((1 :: 0 :: le32 (o.stID % 2 ^ 32)) ++ encodeVarint (count % 2 ^ 32) ++ payload, o.stID)

/-! ## The byte-slice decoder entry points (decoder.go) -/

/-- Decode errors (decoder.go / errors.go). -/
inductive DErr where
  | invalidProtocol
  | invalidVersion (major minor : Nat)
  | typeNotFound (typeID : Nat)
  | varint (e : VErr)
  | mustBePointer
  | structDecodingUnsupported
  | countDestMismatch
deriving DecidableEq, Repr

/-- Kind of the value a destination pointer points to. -/
inductive DKind where
  | struct | slice | other
deriving DecidableEq, Repr

/-- Shape of the decode destination (tinyreflect view of dest). -/
inductive DestShape where
  | ptr (elem : DKind)
  | nonPtr
deriving DecidableEq, Repr

/-- decodeStructValue (decoder.go): tinyreflect cannot modify struct
fields, so single-struct decoding always fails with a typed error. -/
def decodeStructValue : Except DErr Unit := .error .structDecodingUnsupported

/-- decodeSliceValue (decoder.go): placeholder that reports success
without reconstructing the slice. -/
def decodeSliceValue : Except DErr Unit := .ok ()

/-- DecodeFromBytes (decoder.go): length guard, header parse with the
exact version test `major != 1 || minor != 0`, 4-byte LE type id,
registry lookup, varint count, then dispatch on destination shape. -/
def decodeFromBytes (st : List stObject) (data : List Nat) (dest : DestShape) :
    Except DErr Unit :=
  if data.length < 5 then .error .invalidProtocol
  else
    let major := data.getD 0 0
    let minor := data.getD 1 0
    if major ≠ 1 ∨ minor ≠ 0 then .error (.invalidVersion major minor)
    else if data.length < 6 then .error .invalidProtocol
    else
      match st.find? (fun o =>
          o.stID == leUint32 (data.getD 2 0) (data.getD 3 0) (data.getD 4 0) (data.getD 5 0)) with
      | none => .error (.typeNotFound
          (leUint32 (data.getD 2 0) (data.getD 3 0) (data.getD 4 0) (data.getD 5 0)))
      | some _ =>
        match decodeVarint (data.drop 6) with
        | .error e => .error (.varint e)
        | .ok (count, _) =>
          match dest with
          | .nonPtr => .error .mustBePointer
          | .ptr ek =>
            if count = 1 ∧ ek = .struct then decodeStructValue
            else if count > 1 ∧ ek = .slice then decodeSliceValue
            else .error .countDestMismatch

/-- DecodeToNew (decoder.go): same header parsing and lookup, but
returns a placeholder (type id, count, slice flag) instead of filling a
destination. -/
def decodeToNew (st : List stObject) (data : List Nat) :
    Except DErr (Nat × Nat × Bool) :=
  if data.length < 5 then .error .invalidProtocol
  else
    let major := data.getD 0 0
    let minor := data.getD 1 0
    if major ≠ 1 ∨ minor ≠ 0 then .error (.invalidVersion major minor)
    else if data.length < 6 then .error .invalidProtocol
    else
      match st.find? (fun o =>
          o.stID == leUint32 (data.getD 2 0) (data.getD 3 0) (data.getD 4 0) (data.getD 5 0)) with
      | none => .error (.typeNotFound
          (leUint32 (data.getD 2 0) (data.getD 3 0) (data.getD 4 0) (data.getD 5 0)))
      | some _ =>
        match decodeVarint (data.drop 6) with
        | .error e => .error (.varint e)
        | .ok (count, _) =>
          if count = 1 then
            .ok (leUint32 (data.getD 2 0) (data.getD 3 0) (data.getD 4 0) (data.getD 5 0),
              count, false)
          else
            .ok (leUint32 (data.getD 2 0) (data.getD 3 0) (data.getD 4 0) (data.getD 5 0),
              count, true)

/-- Version-error test: holds exactly when a decode entry point failed
on the header version check. -/
def isVersionErr {α : Type} : Except DErr α → Prop
  | .error (.invalidVersion _ _) => True
  | _ => False

instance {α : Type} (r : Except DErr α) : Decidable (isVersionErr r) := by
  unfold isVersionErr
  match r with
  | .error (.invalidVersion _ _) => exact .isTrue trivial
  | .ok _ => exact .isFalse id
  | .error .invalidProtocol => exact .isFalse id
  | .error (.typeNotFound _) => exact .isFalse id
  | .error (.varint _) => exact .isFalse id
  | .error .mustBePointer => exact .isFalse id
  | .error .structDecodingUnsupported => exact .isFalse id
  | .error .countDestMismatch => exact .isFalse id

/-! ## The sticky-error Encoder writer (part_016 / part_017)

The Encoder holds an io.Writer and a stored error; every primitive
write funnels through Write, which calls the sink only while no error
is stored. The sink is modelled by a schedule: `sched n` is the error
result of the n-th call actually made to the underlying io.Writer
(none meaning the call succeeded and delivered its bytes). -/

/-- Encoder state: bytes delivered to the sink so far, number of sink
calls made, and the stored error (an abstract error code). -/
structure Enc where
  written : List Nat
  calls : Nat
  err : Option Nat
deriving DecidableEq, Repr

/-- Encoder.Write (part_016): `if e.err == nil { _, e.err = e.out.Write(p) }`.
When an error is already stored the sink is not called and the state is
unchanged; otherwise the sink call either delivers p or stores its
error. -/
def encWrite (sched : Nat → Option Nat) (p : List Nat) (e : Enc) : Enc :=
  if e.err = none then
    match sched e.calls with
    | none => ⟨e.written ++ p, e.calls + 1, none⟩
    | some er => ⟨e.written, e.calls + 1, some er⟩
  else e

/-- The sequence of Write calls a codec issues during EncodeTo, run in
order against the encoder (the codecs never inspect e.err). -/
def encodeRun (sched : Nat → Option Nat) (chunks : List (List Nat)) (e : Enc) : Enc :=
  chunks.foldl (fun s p => encWrite sched p s) e

/-- A fresh encoder as produced by Reset: no output, no stored error. -/
def enc0 : Enc := ⟨[], 0, none⟩

/-- Encoder.Encode (part_016): when the codec walk itself succeeds, the
call returns the stored writer error `e.err`. -/
def encodeResult (sched : Nat → Option Nat) (chunks : List (List Nat)) : Option Nat :=
  (encodeRun sched chunks enc0).err

/-! ## The byte-buffer reader and the slice codec decode paths (codecs.go)

The Decoder type itself (ReadUvarint / Read over a cursor) is not under
src; the models below follow the spec. The DecodeTo bodies mirror
src/codecs.go. -/

/-- Reader errors. -/
inductive RdErr where
  | varint (e : VErr)
  | eof
deriving DecidableEq, Repr

/-- Decoder cursor over an in-memory byte buffer. -/
structure DecSt where
  data : List Nat
  pos : Nat
deriving DecidableEq, Repr

/-- Modelled from the spec: the Decoder and its buffer reader are not
under src (only their callers are). Per section 4.3 the reader operates
over an in-memory byte buffer with a cursor, and ReadUvarint performs
the same 64-bit LEB128 decode as varint.go decodeVarint64; on success
the cursor advances by the bytes consumed. -/
def readUvarint (s : DecSt) : Except RdErr (Nat × DecSt) :=
  match decodeVarint64 (s.data.drop s.pos) with
  | .error e => .error (.varint e)
  | .ok (v, n) => .ok (v, ⟨s.data, s.pos + n⟩)

/-- Modelled from the spec: Decoder.Read fills a buffer of n bytes from
the cursor, failing when fewer than n bytes remain. -/
def dRead (s : DecSt) (n : Nat) : Except RdErr (List Nat × DecSt) :=
  if s.pos + n ≤ s.data.length then .ok ((s.data.drop s.pos).take n, ⟨s.data, s.pos + n⟩)
  else .error .eof

/-- Element-decoding loop of reflectSliceCodec.DecodeTo: the freshly
allocated slice has l zero elements and each is decoded in place by the
element codec. -/
def decodeElems {α : Type} (elemDec : α → DecSt → Except RdErr (α × DecSt)) (zero : α) :
    Nat → DecSt → Except RdErr (List α × DecSt)
  | 0, s => .ok ([], s)
  | n + 1, s =>
    match elemDec zero s with
    | .error e => .error e
    | .ok (a, s2) =>
      match decodeElems elemDec zero n s2 with
      | .error e => .error e
      | .ok (as, s3) => .ok (a :: as, s3)

/-- reflectSliceCodec.DecodeTo (codecs.go): read the uvarint length;
only when it is positive allocate a slice of that length, overwrite the
destination and decode each element; otherwise the destination is left
untouched. The trailing `return nil` swallows a ReadUvarint error. The
destination is `none` for a nil slice. -/
def reflectSliceDecodeTo {α : Type} (elemDec : α → DecSt → Except RdErr (α × DecSt))
    (zero : α) (dest : Option (List α)) (s : DecSt) :
    Except RdErr (Option (List α) × DecSt) :=
  match readUvarint s with
  | .error _ => .ok (dest, s)
  | .ok (l, s2) =>
    if l > 0 then
      match decodeElems elemDec zero l s2 with
      | .error e => .error e
      | .ok (as, s3) => .ok (some as, s3)
    else .ok (dest, s2)

/-- byteSliceCodec.DecodeTo (codecs.go): read the uvarint length; only
when it is positive read that many raw bytes and replace the
destination with them; otherwise the destination is left untouched. -/
def byteSliceDecodeTo (dest : Option (List Nat)) (s : DecSt) :
    Except RdErr (Option (List Nat) × DecSt) :=
  match readUvarint s with
  | .error _ => .ok (dest, s)
  | .ok (l, s2) =>
    if l > 0 then
      match dRead s2 l with
      | .error _ => .ok (dest, s2)
      | .ok (bs, s3) => .ok (some bs, s3)
    else .ok (dest, s2)

/-- boolSliceCodec.EncodeTo (codecs.go): writes the uvarint length and
then, for a non-empty slice, a placeholder zero byte per element
(`dummy := make([]byte, l)`) regardless of the element values. -/
def boolSliceEncodeBytes (v : List Bool) : List Nat :=
  writeUvarintBytes v.length ++ (if v.length > 0 then List.replicate v.length 0 else [])

/-- boolSliceCodec.DecodeTo (codecs.go): read the uvarint length; when
positive, read that many payload bytes but ignore their contents and
set the destination to `make([]bool, l)`, a slice of l false values. -/
def boolSliceDecodeTo (dest : Option (List Bool)) (s : DecSt) :
    Except RdErr (Option (List Bool) × DecSt) :=
  match readUvarint s with
  | .error _ => .ok (dest, s)
  | .ok (l, s2) =>
    if l > 0 then
      match dRead s2 l with
      | .error e => .error e
      | .ok (_, s3) => .ok (some (List.replicate l false), s3)
    else .ok (dest, s2)

/-- Modelled from the spec: Decoder.ReadBool reads one byte, zero
meaning false. -/
def readBool (s : DecSt) : Except RdErr (Bool × DecSt) :=
  match dRead s 1 with
  | .error e => .error e
  | .ok (bs, s2) => .ok (bs.getD 0 0 ≠ 0, s2)

/-- Modelled from the spec: Decoder.ReadVarint reads a LEB128 uvarint
and undoes the zigzag transform. -/
def readVarint (s : DecSt) : Except RdErr (Int × DecSt) :=
  match readUvarint s with
  | .error e => .error e
  | .ok (ux, s2) =>
    .ok (if ux % 2 = 1 then -(((ux : Int) + 1) / 2) else (ux : Int) / 2, s2)

/-- Element loop of varintSliceCodec.DecodeTo: each element is read
with ReadVarint; a failed read leaves the freshly allocated zero
element in place (`if v, err = d.ReadVarint(); err == nil { SetInt }`)
and the loop continues. -/
def varintSliceLoop : Nat → DecSt → Except RdErr (List Int × DecSt)
  | 0, s => .ok ([], s)
  | n + 1, s =>
    match readVarint s with
    | .error _ =>
      match varintSliceLoop n s with
      | .error e => .error e
      | .ok (vs, s3) => .ok (0 :: vs, s3)
    | .ok (v, s2) =>
      match varintSliceLoop n s2 with
      | .error e => .error e
      | .ok (vs, s3) => .ok (v :: vs, s3)

/-- varintSliceCodec.DecodeTo (codecs.go): the same positive-length
guard as the other slice codecs, then one zigzag varint per element. -/
def varintSliceDecodeTo (dest : Option (List Int)) (s : DecSt) :
    Except RdErr (Option (List Int) × DecSt) :=
  match readUvarint s with
  | .error _ => .ok (dest, s)
  | .ok (l, s2) =>
    if l > 0 then
      match varintSliceLoop l s2 with
      | .error e => .error e
      | .ok (vs, s3) => .ok (some vs, s3)
    else .ok (dest, s2)

/-- Element loop of varuintSliceCodec.DecodeTo (plain uvarints). -/
def varuintSliceLoop : Nat → DecSt → Except RdErr (List Nat × DecSt)
  | 0, s => .ok ([], s)
  | n + 1, s =>
    match readUvarint s with
    | .error _ =>
      match varuintSliceLoop n s with
      | .error e => .error e
      | .ok (vs, s3) => .ok (0 :: vs, s3)
    | .ok (v, s2) =>
      match varuintSliceLoop n s2 with
      | .error e => .error e
      | .ok (vs, s3) => .ok (v :: vs, s3)

/-- varuintSliceCodec.DecodeTo (codecs.go). -/
def varuintSliceDecodeTo (dest : Option (List Nat)) (s : DecSt) :
    Except RdErr (Option (List Nat) × DecSt) :=
  match readUvarint s with
  | .error _ => .ok (dest, s)
  | .ok (l, s2) =>
    if l > 0 then
      match varuintSliceLoop l s2 with
      | .error e => .error e
      | .ok (vs, s3) => .ok (some vs, s3)
    else .ok (dest, s2)

/-- Element loop of reflectSliceOfPtrCodec.DecodeTo: one isNil bool per
element; a true flag leaves the freshly allocated nil pointer (`none`)
in place, a false flag decodes a fresh element. -/
def sliceOfPtrLoop {α : Type} (elemDec : α → DecSt → Except RdErr (α × DecSt)) (zero : α) :
    Nat → DecSt → Except RdErr (List (Option α) × DecSt)
  | 0, s => .ok ([], s)
  | n + 1, s =>
    match readBool s with
    | .error e => .error e
    | .ok (isNil, s2) =>
      if isNil then
        match sliceOfPtrLoop elemDec zero n s2 with
        | .error e => .error e
        | .ok (vs, s3) => .ok (none :: vs, s3)
      else
        match elemDec zero s2 with
        | .error e => .error e
        | .ok (a, s3) =>
          match sliceOfPtrLoop elemDec zero n s3 with
          | .error e => .error e
          | .ok (vs, s4) => .ok (some a :: vs, s4)

/-- reflectSliceOfPtrCodec.DecodeTo (codecs.go): the same
positive-length guard, then the per-element isNil protocol. -/
def sliceOfPtrDecodeTo {α : Type} (elemDec : α → DecSt → Except RdErr (α × DecSt))
    (zero : α) (dest : Option (List (Option α))) (s : DecSt) :
    Except RdErr (Option (List (Option α)) × DecSt) :=
  match readUvarint s with
  | .error _ => .ok (dest, s)
  | .ok (l, s2) =>
    if l > 0 then
      match sliceOfPtrLoop elemDec zero l s2 with
      | .error e => .error e
      | .ok (vs, s3) => .ok (some vs, s3)
    else .ok (dest, s2)

/-- A chain of n directly nested struct types with distinct StructIDs:
tyChain n has struct-nesting depth n. -/
def tyChain : Nat → Ty
  | 0 => .prim .int
  | 1 => .strct 1 "T" .nil
  | n + 2 => .strct (n + 2) "T" (.cons "f" (tyChain (n + 1)) .nil)

/-! ## The slice-based schema cache (part_008) -/

/-- findSchema (part_008): linear search by type id. Codecs are
represented by opaque codes. -/
def findSchema (l : List (Nat × Nat)) (tid : Nat) : Option Nat :=
  match l.find? (fun e => e.1 == tid) with
  | some e => some e.2
  | none => none

/-- addSchema (part_008): when the cache already holds 1000 or more
entries the oldest (first) entry is removed, then the new entry is
appended. -/
def addSchema (l : List (Nat × Nat)) (tid c : Nat) : List (Nat × Nat) :=
  (if l.length ≥ 1000 then l.drop 1 else l) ++ [(tid, c)]

/-- scanToCache (part_008): return the cached codec when present,
otherwise cache the scanned codec. `scanned` stands for the result of
scan(t), a pure function of the type. Returns the codec and the new
cache. -/
def scanToCache (l : List (Nat × Nat)) (tid scanned : Nat) : Nat × List (Nat × Nat) :=
  match findSchema l tid with
  | some c => (c, l)
  | none => (scanned, addSchema l tid scanned)

/-! # Theorems -/

/-- C1. The claim states that the identifier stored in a struct
descriptor equals its registration-order index, so that identical
registration order yields identical identifiers and different orders
yield different identifiers. The code stores the tinyreflect StructID
instead: with two struct types whose StructIDs are 7 and 9, the first
registered descriptor carries id 7 rather than index 0, and swapping
the registration order on a second engine assigns each type the same
identifier as before rather than a different one. -/
theorem c1_structid_not_positional_eval :
    addStructs (newTB none) [.strct 7 "A" .nil, .strct 9 "B" .nil]
      = .ok ⟨8, [⟨7, "A", []⟩, ⟨9, "B", []⟩]⟩
    ∧ addStructs (newTB none) [.strct 9 "B" .nil, .strct 7 "A" .nil]
      = .ok ⟨8, [⟨9, "B", []⟩, ⟨7, "A", []⟩]⟩
    ∧ (7 : Nat) ≠ 0 ∧ (9 : Nat) ≠ 1 := by
  refine ⟨rfl, rfl, by decide, by decide⟩

/-- C2 counterexample. The claim states that a differing minor version
with matching major does not fail the version check; but on the input
with header major 1 and minor 2, both decode entry points fail with the
version error. -/
theorem c2_minor_version_counterexample :
    decodeToNew [⟨0, "P", []⟩] [1, 2, 0, 0, 0, 0, 1] = .error (.invalidVersion 1 2)
    ∧ decodeFromBytes [⟨0, "P", []⟩] [1, 2, 0, 0, 0, 0, 1] (.ptr .struct)
      = .error (.invalidVersion 1 2) := by
  refine ⟨rfl, rfl⟩

/-- C3. The claim states the round-trip identity for all supported
shapes. For a bool slice the encoder writes a placeholder zero byte per
element and the decoder ignores the payload and materializes an
all-false slice, so the round trip of a one-element slice holding true
yields a slice holding false. -/
theorem c3_bool_slice_roundtrip_eval :
    boolSliceEncodeBytes [true] = [1, 0]
    ∧ boolSliceDecodeTo none ⟨boolSliceEncodeBytes [true], 0⟩
      = .ok (some [false], ⟨[1, 0], 2⟩)
    ∧ ([false] : List Bool) ≠ [true] := by
  have h1 : boolSliceEncodeBytes [true] = [1, 0] := by
    simp [boolSliceEncodeBytes, writeUvarintBytes]
  refine ⟨h1, ?_, by decide⟩
  rw [h1]
  rfl

/-- C6. The claim states that float encoding writes the IEEE-754 bit
pattern in fixed little-endian form. The encodeField path converts the
value numerically instead: for the float32 value 2.5 (bit pattern
0x40200000, integer truncation 2) it writes the bytes of 2, while the
WriteFloat32 path writes the bytes of the bit pattern; similarly for
the float64 value 2.5. -/
theorem c6_float_truncation_eval :
    encodeField (.vFloat32 0x40200000 2) = .ok [2, 0, 0, 0]
    ∧ writeFloat32Bytes 0x40200000 = [0, 0, 32, 64]
    ∧ encodeField (.vFloat64 0x4004000000000000 2) = .ok [2, 0, 0, 0, 0, 0, 0, 0]
    ∧ writeFloat64Bytes 0x4004000000000000 = [0, 0, 0, 0, 0, 0, 4, 64]
    ∧ ([2, 0, 0, 0] : List Nat) ≠ [0, 0, 32, 64] := by
  refine ⟨by simp [encodeField, le32], by decide, by simp [encodeField, le64], by decide,
    by decide⟩

/-- C7 counterexample. The claim states that an input whose first five
bytes all carry the continuation bit yields VarintOverflow; on the
five-byte all-continuation input the decoder exhausts the buffer first
and yields VarintTruncated instead. -/
theorem c7_five_continuation_counterexample :
    decodeVarint [0x80, 0x80, 0x80, 0x80, 0x80] = .error .truncated
    ∧ (Except.error .truncated : Except VErr (Nat × Nat)) ≠ .error .overflow := by
  constructor
  · rfl
  · intro h
    exact absurd (Except.error.inj h) (by decide)

/-- C8 counterexample. The claim states that AddStructs fails whenever
the nesting depth of the struct exceeds MaxDepth. With the default
MaxDepth of 8, registering an eight-deep chain first and then a struct
that nests that chain one level deeper succeeds: the depth check is
skipped below an already-registered struct, although the second struct
has nesting depth 9. -/
theorem c8_depth_dedup_counterexample :
    isOkB (addStructs (newTB none)
      [tyChain 8, .strct 99 "S" (.cons "f" (tyChain 8) .nil)]) = true
    ∧ structDepth (.strct 99 "S" (.cons "f" (tyChain 8) .nil)) = 9
    ∧ (newTB none).maxDepth = 8 := by
  refine ⟨rfl, rfl, rfl⟩

/-- C2 amended. Decode fails on the version check exactly when the
header version pair differs from (1, 0): a major mismatch fails as the
claim states, but a differing minor version with matching major is also
rejected rather than tolerated. When the version check fires, the
returned error is the version error carrying the header bytes. -/
theorem c2_version_check_amended :
    ∀ (st : List stObject) (data : List Nat) (dest : DestShape),
      5 ≤ data.length →
      (isVersionErr (decodeFromBytes st data dest) ↔ (data.getD 0 0 ≠ 1 ∨ data.getD 1 0 ≠ 0))
      ∧ (isVersionErr (decodeToNew st data) ↔ (data.getD 0 0 ≠ 1 ∨ data.getD 1 0 ≠ 0))
      ∧ ((data.getD 0 0 ≠ 1 ∨ data.getD 1 0 ≠ 0) →
          decodeFromBytes st data dest
            = .error (.invalidVersion (data.getD 0 0) (data.getD 1 0))) := by
  intro st data dest h
  have h5 : ¬ (data.length < 5) := by omega
  by_cases hv : data.getD 0 0 ≠ 1 ∨ data.getD 1 0 ≠ 0
  · refine ⟨?_, ?_, ?_⟩
    · unfold decodeFromBytes
      rw [if_neg h5, if_pos hv]
      simpa [isVersionErr] using hv
    · unfold decodeToNew
      rw [if_neg h5, if_pos hv]
      simpa [isVersionErr] using hv
    · intro _
      unfold decodeFromBytes
      rw [if_neg h5, if_pos hv]
  · refine ⟨iff_of_false ?_ hv, iff_of_false ?_ hv, fun habs => absurd habs hv⟩
    · unfold decodeFromBytes
      rw [if_neg h5, if_neg hv]
      split
      · simp [isVersionErr]
      · cases List.find? (fun o =>
            o.stID == leUint32 (data.getD 2 0) (data.getD 3 0) (data.getD 4 0) (data.getD 5 0)) st with
        | none => simp [isVersionErr]
        | some o =>
          cases hvv : decodeVarint (List.drop 6 data) with
          | error e => simp [isVersionErr]
          | ok p =>
            obtain ⟨count, consumed⟩ := p
            cases dest with
            | nonPtr => simp [isVersionErr]
            | ptr ek =>
              dsimp only
              split_ifs <;> simp [isVersionErr, decodeStructValue, decodeSliceValue]
    · unfold decodeToNew
      rw [if_neg h5, if_neg hv]
      split
      · simp [isVersionErr]
      · cases List.find? (fun o =>
            o.stID == leUint32 (data.getD 2 0) (data.getD 3 0) (data.getD 4 0) (data.getD 5 0)) st with
        | none => simp [isVersionErr]
        | some o =>
          cases hvv : decodeVarint (List.drop 6 data) with
          | error e => simp [isVersionErr]
          | ok p =>
            obtain ⟨count, consumed⟩ := p
            dsimp only
            split_ifs <;> simp [isVersionErr]

/-- C2 amended witness: a minor-only mismatch and a major mismatch both
fail the version check at concrete inputs. -/
theorem c2_version_check_amended_witness :
    isVersionErr (decodeFromBytes [] [1, 2, 0, 0, 0] .nonPtr)
    ∧ isVersionErr (decodeToNew [] [1, 2, 0, 0, 0])
    ∧ decodeFromBytes [] [2, 0, 0, 0, 0] .nonPtr = .error (.invalidVersion 2 0) := by
  have h1 := c2_version_check_amended [] [1, 2, 0, 0, 0] DestShape.nonPtr (by decide)
  have h2 := c2_version_check_amended [] [2, 0, 0, 0, 0] DestShape.nonPtr (by decide)
  exact ⟨h1.1.mpr (by decide), h1.2.1.mpr (by decide), h2.2.2 (by decide)⟩

/-- Helper: a LEB128 encode of a value below 128 is the single byte. -/
lemma encodeVarint_lt (x : Nat) (h : x < 0x80) : encodeVarint x = [x] := by
  unfold encodeVarint
  simp [Nat.not_le.mpr h]

/-- Helper: the uint32 reduction does not change a small value. -/
lemma encodeVarint_mod_lt (x : Nat) (h : x < 0x80) : encodeVarint (x % 2 ^ 32) = [x] := by
  rw [Nat.mod_eq_of_lt (by omega), encodeVarint_lt x h]

/-- Helper: reassembling the four little-endian bytes of a 32-bit value
gives the value back. -/
lemma leUint32_le32 (x : Nat) (h : x < 2 ^ 32) :
    leUint32 (x % 256) (x / 256 % 256) (x / 65536 % 256) (x / 16777216 % 256) = x := by
  unfold leUint32
  omega

/-- Helper: the payload of the Alice record under the part_015 encoder:
varint length plus string bytes for Name, then the int32 field in fixed
4-byte little-endian form. -/
lemma encodeValue_alice (sid : Nat) :
    encodeValue (.vStrct sid [.vString [65, 108, 105, 99, 101], .vInt32 30])
      = .ok [5, 65, 108, 105, 99, 101, 30, 0, 0, 0] := by
  simp only [encodeValue, encodeStructFields, encodeField, List.length_cons, List.length_nil]
  rw [encodeVarint_mod_lt 5 (by decide)]
  rfl

/-- C4 counterexample. The claim names the exact bytes
`[1,0,0,1][5 Alice][zigzag 30]` (11 bytes). Even granting the claim the
most favorable type id 0, the encoder emits 17 bytes: a 4-byte
little-endian type id after the version bytes, and the int32 field in
fixed 4-byte little-endian form rather than as a zigzag varint. -/
theorem c4_person_bytes_counterexample :
    encodeToBytes [⟨0, "Person", []⟩]
        (.vStrct 0 [.vString [65, 108, 105, 99, 101], .vInt32 30])
      = .ok ([1, 0, 0, 0, 0, 0, 1, 5, 65, 108, 105, 99, 101, 30, 0, 0, 0], 0)
    ∧ ([1, 0, 0, 0, 0, 0, 1, 5, 65, 108, 105, 99, 101, 30, 0, 0, 0] : List Nat)
      ≠ [1, 0, 0, 1] ++ ([5, 65, 108, 105, 99, 101] ++ [60]) := by
  refine ⟨?_, by decide⟩
  simp only [encodeToBytes, analyzeDataType, bind, Except.bind]
  rw [encodeValue_alice 0]
  simp only [List.find?, beq_self_eq_true]
  rw [encodeVarint_mod_lt 1 (by decide)]
  rfl

/-- C4 amended. Encoding the Alice record on an engine that has the
Person struct registered produces the version bytes 1 and 0, the 4-byte
little-endian StructID of Person, the uvarint count 1, the varint
length plus raw bytes of the Name string, and the Age int32 as a fixed
4-byte little-endian integer; decoding those bytes back fails because
single-struct decoding is unsupported in decoder.go. -/
theorem c4_person_scenario_amended :
    ∀ sid : Nat, sid < 2 ^ 32 →
    encodeToBytes [⟨sid, "Person", []⟩]
        (.vStrct sid [.vString [65, 108, 105, 99, 101], .vInt32 30])
      = .ok ((1 :: 0 :: le32 sid) ++ [1, 5, 65, 108, 105, 99, 101, 30, 0, 0, 0], sid)
    ∧ decodeFromBytes [⟨sid, "Person", []⟩]
        ((1 :: 0 :: le32 sid) ++ [1, 5, 65, 108, 105, 99, 101, 30, 0, 0, 0]) (.ptr .struct)
      = .error .structDecodingUnsupported := by
  intro sid h
  constructor
  · simp only [encodeToBytes, analyzeDataType, bind, Except.bind]
    rw [encodeValue_alice sid]
    simp only [List.find?, beq_self_eq_true]
    rw [encodeVarint_mod_lt 1 (by decide), Nat.mod_eq_of_lt h]
    rfl
  · simp only [le32, List.cons_append, List.nil_append]
    simp [decodeFromBytes, List.getD]
    rw [leUint32_le32 sid h]
    simp [List.find?, decodeVarint, decodeVarintLoop, decodeStructValue]

/-- C4 amended witness: the amended statement at StructID 0. -/
theorem c4_person_scenario_amended_witness :
    encodeToBytes [⟨0, "Person", []⟩]
        (.vStrct 0 [.vString [65, 108, 105, 99, 101], .vInt32 30])
      = .ok ((1 :: 0 :: le32 0) ++ [1, 5, 65, 108, 105, 99, 101, 30, 0, 0, 0], 0)
    ∧ decodeFromBytes [⟨0, "Person", []⟩]
        ((1 :: 0 :: le32 0) ++ [1, 5, 65, 108, 105, 99, 101, 30, 0, 0, 0]) (.ptr .struct)
      = .error .structDecodingUnsupported :=
  c4_person_scenario_amended 0 (by decide)

set_option maxRecDepth 8000 in
/-- C5 counterexample. The claim states that a cached codec entry is
never evicted. With the cache at its 1000-entry limit, inserting one
more schema evicts the oldest entry: the codec for type id 0 is
findable before the insertion and gone after it. -/
theorem c5_cache_eviction_counterexample :
    findSchema ((List.range 1000).map (fun i => (i, i))) 0 = some 0
    ∧ findSchema (addSchema ((List.range 1000).map (fun i => (i, i))) 1000 1000) 0
      = none := by
  refine ⟨by decide, by decide⟩

/-- C5 amended. Below the 1000-entry limit the cache is append-only:
insertion preserves every existing entry, and a cache hit returns the
stored codec with the cache unchanged. At the limit, addSchema evicts
the oldest entry (see the counterexample). -/
theorem c5_cache_append_only_amended :
    ∀ (l : List (Nat × Nat)) (tid c : Nat),
      (l.length < 1000 → addSchema l tid c = l ++ [(tid, c)])
      ∧ (∀ p ∈ l, l.length < 1000 → p ∈ addSchema l tid c)
      ∧ (∀ c0, findSchema l tid = some c0 → scanToCache l tid c = (c0, l)) := by
  intro l tid c
  refine ⟨?_, ?_, ?_⟩
  · intro h
    unfold addSchema
    rw [if_neg (by omega)]
  · intro p hp h
    unfold addSchema
    rw [if_neg (by omega)]
    exact List.mem_append_left _ hp
  · intro c0 h
    unfold scanToCache
    rw [h]

/-- C5 amended witness: the amended statement at a one-entry cache. -/
theorem c5_cache_append_only_amended_witness :
    addSchema [(3, 5)] 4 6 = [(3, 5), (4, 6)]
    ∧ (3, 5) ∈ addSchema [(3, 5)] 4 6
    ∧ scanToCache [(3, 5)] 3 9 = (5, [(3, 5)]) := by
  refine ⟨(c5_cache_append_only_amended [(3, 5)] 4 6).1 (by decide),
    (c5_cache_append_only_amended [(3, 5)] 4 6).2.1 (3, 5) (by decide) (by decide),
    (c5_cache_append_only_amended [(3, 5)] 3 9).2.2 5 (by rfl)⟩

/-- Helper: the varint decode loop reports truncation when the buffer
ends within the byte budget while every byte still signals
continuation. -/
lemma decodeVarintLoop_truncated (limit width : Nat) :
    ∀ (buf : List Nat) (i x s : Nat), (∀ b ∈ buf, 0x80 ≤ b) → buf.length + i ≤ limit →
      decodeVarintLoop limit width buf i x s = .error .truncated := by
  intro buf
  induction buf with
  | nil => intro i x s _ _; rfl
  | cons b rest ih =>
    intro i x s hall hlen
    have hb : 0x80 ≤ b := hall b (List.mem_cons_self b rest)
    have hi : ¬ (i = limit) := by
      simp [List.length_cons] at hlen
      omega
    rw [decodeVarintLoop, if_neg hi, if_neg (by omega)]
    exact ih (i + 1) _ _ (fun y hy => hall y (List.mem_cons_of_mem b hy)) (by
      simp [List.length_cons] at hlen
      omega)

/-- Helper: the varint decode loop reports overflow as soon as the byte
past the budget is reached with every in-budget byte signalling
continuation. -/
lemma decodeVarintLoop_overflow (limit width : Nat) :
    ∀ (buf : List Nat) (i x s : Nat), i ≤ limit → limit < buf.length + i →
      (∀ b ∈ buf.take (limit - i), 0x80 ≤ b) →
      decodeVarintLoop limit width buf i x s = .error .overflow := by
  intro buf
  induction buf with
  | nil => intro i x s hle hlt _; simp at hlt; omega
  | cons b rest ih =>
    intro i x s hle hlt hall
    by_cases hi : i = limit
    · rw [decodeVarintLoop, if_pos hi]
    · have hlim : 0 < limit - i := by omega
      have hb : 0x80 ≤ b := by
        apply hall
        rw [List.take_cons hlim]
        exact List.mem_cons_self _ _
      rw [decodeVarintLoop, if_neg hi, if_neg (by omega)]
      apply ih (i + 1) _ _ (by omega) (by simp [List.length_cons] at hlt; omega)
      intro y hy
      apply hall
      rw [List.take_cons hlim]
      apply List.mem_cons_of_mem
      have heq : limit - i - 1 = limit - (i + 1) := by omega
      rw [heq]
      exact hy

/-- Helper: a successful varint decode consumes at most the byte
budget. -/
lemma decodeVarintLoop_ok_bound (limit width : Nat) :
    ∀ (buf : List Nat) (i x s v n : Nat), i ≤ limit →
      decodeVarintLoop limit width buf i x s = .ok (v, n) → n ≤ limit := by
  intro buf
  induction buf with
  | nil => intro i x s v n _ h; exact absurd h (by simp [decodeVarintLoop])
  | cons b rest ih =>
    intro i x s v n hle h
    rw [decodeVarintLoop] at h
    by_cases hi : i = limit
    · rw [if_pos hi] at h
      exact absurd h (by simp)
    · rw [if_neg hi] at h
      by_cases hb : b < 0x80
      · rw [if_pos hb] at h
        have hp := Except.ok.inj h
        have hn : n = i + 1 := (congrArg Prod.snd hp).symm
        omega
      · rw [if_neg hb] at h
        exact ih (i + 1) _ _ v n (by omega) h

/-- Helper: the varint decode loop succeeds, consuming at most the byte
budget, whenever some in-budget byte has the continuation bit clear. -/
lemma decodeVarintLoop_ok_of_low (limit width : Nat) :
    ∀ (buf : List Nat) (i x s : Nat), i ≤ limit →
      (∃ b ∈ buf.take (limit - i), b < 0x80) →
      ∃ v n, decodeVarintLoop limit width buf i x s = .ok (v, n) ∧ n ≤ limit := by
  intro buf
  induction buf with
  | nil =>
    intro i x s hle hex
    simp at hex
  | cons b rest ih =>
    intro i x s hle hex
    have hlim : 0 < limit - i := by
      by_contra hc
      have h0 : limit - i = 0 := by omega
      rw [h0, List.take_zero] at hex
      simp at hex
    have hi : i ≠ limit := by omega
    by_cases hb : b < 0x80
    · refine ⟨(x ||| b <<< s) % 2 ^ width, i + 1, ?_, by omega⟩
      rw [decodeVarintLoop, if_neg hi, if_pos hb]
    · have hex2 : ∃ b2 ∈ rest.take (limit - (i + 1)), b2 < 0x80 := by
        rcases hex with ⟨b2, hmem, hlt⟩
        rw [List.take_cons hlim] at hmem
        rcases List.mem_cons.mp hmem with he | hm
        · exact absurd (he ▸ hlt) hb
        · exact ⟨b2, by rw [show limit - (i + 1) = limit - i - 1 by omega]; exact hm, hlt⟩
      obtain ⟨v, n, hok, hn⟩ := ih (i + 1) ((x ||| (b &&& 0x7f) <<< s) % 2 ^ width) (s + 7)
        (by omega) hex2
      exact ⟨v, n, by rw [decodeVarintLoop, if_neg hi, if_neg hb]; exact hok, hn⟩

/-- Helper: full characterization of a varint decode from the start of
a buffer — the three outcomes are each equivalent to their byte-level
condition, so every buffer falls in exactly one case. -/
lemma decodeVarintLoop_characterize (limit width : Nat) (buf : List Nat) :
    (decodeVarintLoop limit width buf 0 0 0 = .error .overflow
       ↔ (limit + 1 ≤ buf.length ∧ ∀ b ∈ buf.take limit, 0x80 ≤ b))
    ∧ (decodeVarintLoop limit width buf 0 0 0 = .error .truncated
       ↔ (buf.length ≤ limit ∧ ∀ b ∈ buf, 0x80 ≤ b))
    ∧ ((∃ v n, decodeVarintLoop limit width buf 0 0 0 = .ok (v, n) ∧ n ≤ limit)
       ↔ ∃ b ∈ buf.take limit, b < 0x80) := by
  by_cases hA : ∃ b ∈ buf.take limit, b < 0x80
  · obtain ⟨v, n, hok, hn⟩ := decodeVarintLoop_ok_of_low limit width buf 0 0 0 (by omega)
      (by simpa using hA)
    refine ⟨⟨?_, ?_⟩, ⟨?_, ?_⟩, ⟨fun _ => hA, fun _ => ⟨v, n, hok, hn⟩⟩⟩
    · intro h
      rw [h] at hok
      exact Except.noConfusion hok
    · intro hc
      obtain ⟨b, hm, hlt⟩ := hA
      exact absurd (hc.2 b hm) (by omega)
    · intro h
      rw [h] at hok
      exact Except.noConfusion hok
    · intro hc
      obtain ⟨b, hm, hlt⟩ := hA
      have hb := hc.2 b (List.mem_of_mem_take hm)
      omega
  · push_neg at hA
    by_cases hlen : buf.length ≤ limit
    · have htr : decodeVarintLoop limit width buf 0 0 0 = .error .truncated :=
        decodeVarintLoop_truncated limit width buf 0 0 0
          (fun b hb => hA b (by rw [List.take_of_length_le hlen]; exact hb)) (by omega)
      refine ⟨⟨?_, ?_⟩, ⟨?_, ?_⟩, ⟨?_, ?_⟩⟩
      · intro h
        rw [htr] at h
        exact VErr.noConfusion (Except.error.inj h)
      · intro hc
        omega
      · intro _
        exact ⟨hlen, fun b hb => hA b (by rw [List.take_of_length_le hlen]; exact hb)⟩
      · intro _
        exact htr
      · intro ⟨v, n, hok, _⟩
        rw [htr] at hok
        exact Except.noConfusion hok
      · intro ⟨b, hm, hlt⟩
        exact absurd (hA b hm) (by omega)
    · push_neg at hlen
      have hov : decodeVarintLoop limit width buf 0 0 0 = .error .overflow :=
        decodeVarintLoop_overflow limit width buf 0 0 0 (by omega) (by omega) (by simpa using hA)
      refine ⟨⟨?_, ?_⟩, ⟨?_, ?_⟩, ⟨?_, ?_⟩⟩
      · intro _
        exact ⟨by omega, hA⟩
      · intro _
        exact hov
      · intro h
        rw [hov] at h
        exact VErr.noConfusion (Except.error.inj h)
      · intro hc
        omega
      · intro ⟨v, n, hok, _⟩
        rw [hov] at hok
        exact Except.noConfusion hok
      · intro ⟨b, hm, hlt⟩
        exact absurd (hA b hm) (by omega)

/-- C7 amended. Full characterization of both decoders: for the 32-bit
target, VarintOverflow is returned exactly when a sixth byte is present
and the first five bytes all carry the continuation bit; VarintTruncated
exactly when the buffer ends within the five-byte budget with every
byte still carrying the continuation bit (including the five-byte
all-continuation input of the counterexample); and otherwise — exactly
when some byte among the first five has the continuation bit clear —
decoding succeeds consuming at most 5 bytes. The same holds for the
64-bit target with the 10-byte budget. -/
theorem c7_varint_bounds_amended :
    (∀ buf : List Nat, decodeVarint buf = .error .overflow
        ↔ (6 ≤ buf.length ∧ ∀ b ∈ buf.take 5, 0x80 ≤ b))
    ∧ (∀ buf : List Nat, decodeVarint buf = .error .truncated
        ↔ (buf.length ≤ 5 ∧ ∀ b ∈ buf, 0x80 ≤ b))
    ∧ (∀ buf : List Nat, (∃ v n, decodeVarint buf = .ok (v, n) ∧ n ≤ 5)
        ↔ ∃ b ∈ buf.take 5, b < 0x80)
    ∧ (∀ buf : List Nat, decodeVarint64 buf = .error .overflow
        ↔ (11 ≤ buf.length ∧ ∀ b ∈ buf.take 10, 0x80 ≤ b))
    ∧ (∀ buf : List Nat, decodeVarint64 buf = .error .truncated
        ↔ (buf.length ≤ 10 ∧ ∀ b ∈ buf, 0x80 ≤ b))
    ∧ (∀ buf : List Nat, (∃ v n, decodeVarint64 buf = .ok (v, n) ∧ n ≤ 10)
        ↔ ∃ b ∈ buf.take 10, b < 0x80) :=
  ⟨fun buf => (decodeVarintLoop_characterize 5 32 buf).1,
   fun buf => (decodeVarintLoop_characterize 5 32 buf).2.1,
   fun buf => (decodeVarintLoop_characterize 5 32 buf).2.2,
   fun buf => (decodeVarintLoop_characterize 10 64 buf).1,
   fun buf => (decodeVarintLoop_characterize 10 64 buf).2.1,
   fun buf => (decodeVarintLoop_characterize 10 64 buf).2.2⟩

/-- C7 amended witness: the characterization at concrete buffers — a
six-byte all-continuation prefix overflows, a lone continuation byte
truncates, and the ordinary one-byte input [5] decodes successfully. -/
theorem c7_varint_bounds_amended_witness :
    decodeVarint [128, 128, 128, 128, 128, 0] = .error .overflow
    ∧ decodeVarint [128] = .error .truncated
    ∧ decodeVarint [5] = .ok (5, 1)
    ∧ decodeVarint64 (List.replicate 11 128) = .error .overflow
    ∧ decodeVarint64 [128] = .error .truncated
    ∧ decodeVarint64 [5] = .ok (5, 1) := by
  refine ⟨(c7_varint_bounds_amended.1 _).mpr ⟨by decide, by decide⟩,
    (c7_varint_bounds_amended.2.1 _).mpr ⟨by decide, by decide⟩,
    by rfl,
    (c7_varint_bounds_amended.2.2.2.1 _).mpr ⟨by decide, by decide⟩,
    (c7_varint_bounds_amended.2.2.2.2.1 _).mpr ⟨by decide, by decide⟩,
    by rfl⟩

/-- Helper: a write on an encoder that already stores an error is a
complete no-op. -/
lemma encWrite_noop (sched : Nat → Option Nat) (p : List Nat) (e : Enc) (er : Nat)
    (h : e.err = some er) : encWrite sched p e = e := by
  unfold encWrite
  rw [if_neg (by simp [h])]

/-- Helper: a whole run of writes on an encoder that already stores an
error leaves the encoder untouched. -/
lemma encodeRun_noop (sched : Nat → Option Nat) (chunks : List (List Nat)) (e : Enc) (er : Nat)
    (h : e.err = some er) : encodeRun sched chunks e = e := by
  induction chunks with
  | nil => rfl
  | cons p rest ih =>
    show encodeRun sched rest (encWrite sched p e) = e
    rw [encWrite_noop sched p e er h]
    exact ih

/-- Helper: when the k-th sink call is the first to fail, the run
delivers exactly the chunks before k and ends with that error stored. -/
lemma encodeRun_first_err (sched : Nat → Option Nat) :
    ∀ (chunks : List (List Nat)) (k er : Nat) (w : List Nat) (c : Nat),
      k < chunks.length → (∀ j < k, sched (c + j) = none) → sched (c + k) = some er →
      encodeRun sched chunks ⟨w, c, none⟩
        = ⟨w ++ (chunks.take k).flatten, c + k + 1, some er⟩ := by
  intro chunks
  induction chunks with
  | nil => intro k er w c hk _ _; simp at hk
  | cons p rest ih =>
    intro k er w c hk hnone herr
    cases k with
    | zero =>
      have hc : sched c = some er := by simpa using herr
      have h1 : encWrite sched p ⟨w, c, none⟩ = ⟨w, c + 1, some er⟩ := by
        unfold encWrite
        simp [hc]
      show encodeRun sched rest (encWrite sched p ⟨w, c, none⟩) = _
      rw [h1, encodeRun_noop sched rest _ er rfl]
      simp
    | succ k2 =>
      have hc : sched c = none := by simpa using hnone 0 (by omega)
      have h1 : encWrite sched p ⟨w, c, none⟩ = ⟨w ++ p, c + 1, none⟩ := by
        unfold encWrite
        simp [hc]
      show encodeRun sched rest (encWrite sched p ⟨w, c, none⟩) = _
      rw [h1, ih k2 er (w ++ p) (c + 1) (by simpa using hk)
        (fun j hj => by
          rw [show c + 1 + j = c + (j + 1) by omega]
          exact hnone (j + 1) (by omega))
        (by
          rw [show c + 1 + k2 = c + (k2 + 1) by omega]
          exact herr)]
      simp [Enc.mk.injEq, List.append_assoc]
      omega

/-- C9. The writer is sticky on error: a write on an encoder that
already stores an error changes nothing (no sink call, no byte
delivered, error kept), and for any run of codec writes in which the
k-th sink call is the first to fail, the sink receives exactly the
chunks before k and Encode returns that first error. -/
theorem c9_sticky_writer :
    ∀ (sched : Nat → Option Nat),
      (∀ (p : List Nat) (e : Enc) (er : Nat), e.err = some er → encWrite sched p e = e)
      ∧ (∀ (chunks : List (List Nat)) (k er : Nat), k < chunks.length →
          (∀ j < k, sched j = none) → sched k = some er →
          encodeRun sched chunks enc0 = ⟨(chunks.take k).flatten, k + 1, some er⟩
          ∧ encodeResult sched chunks = some er) := by
  intro sched
  constructor
  · exact fun p e er h => encWrite_noop sched p e er h
  · intro chunks k er hk hnone herr
    have h := encodeRun_first_err sched chunks k er [] 0 hk
      (fun j hj => by simpa using hnone j hj) (by simpa using herr)
    have h2 : encodeRun sched chunks enc0 = ⟨(chunks.take k).flatten, k + 1, some er⟩ := by
      simpa [enc0] using h
    constructor
    · exact h2
    · unfold encodeResult
      rw [h2]

/-- C9 witness: a run of three writes whose second sink call fails with
error code 42 delivers only the first chunk and returns 42, and a write
on an encoder holding error 7 is a no-op. -/
theorem c9_sticky_writer_witness :
    encWrite (fun n => if n = 1 then some 42 else none) [9] ⟨[5], 3, some 7⟩ = ⟨[5], 3, some 7⟩
    ∧ encodeRun (fun n => if n = 1 then some 42 else none) [[1], [2], [3]] enc0
        = ⟨[1], 2, some 42⟩
    ∧ encodeResult (fun n => if n = 1 then some 42 else none) [[1], [2], [3]] = some 42 := by
  have h := (c9_sticky_writer (fun n => if n = 1 then some 42 else none)).2
    [[1], [2], [3]] 1 42 (by decide) (by decide) (by decide)
  exact ⟨(c9_sticky_writer (fun n => if n = 1 then some 42 else none)).1 [9] ⟨[5], 3, some 7⟩ 7 rfl,
    by simpa using h.1, h.2⟩

/-- C10. For every slice codec, decoding a wire length of 0 returns
success with the destination untouched (a nil destination, modelled as
none, stays none) and the cursor advanced by exactly the bytes of the
length prefix. The statement covers the generic slice codec, the byte,
bool, signed-varint and unsigned-varint fast paths, and the
slice-of-pointer codec. -/
theorem c10_zero_length_slice_decode :
    ∀ {α β : Type} (elemDec : α → DecSt → Except RdErr (α × DecSt)) (zero : α)
      (pElemDec : β → DecSt → Except RdErr (β × DecSt)) (pZero : β)
      (destG : Option (List α)) (destB : Option (List Nat)) (destBool : Option (List Bool))
      (destI : Option (List Int)) (destU : Option (List Nat))
      (destP : Option (List (Option β))) (s : DecSt) (n : Nat),
      decodeVarint64 (s.data.drop s.pos) = .ok (0, n) →
      reflectSliceDecodeTo elemDec zero destG s = .ok (destG, ⟨s.data, s.pos + n⟩)
      ∧ byteSliceDecodeTo destB s = .ok (destB, ⟨s.data, s.pos + n⟩)
      ∧ boolSliceDecodeTo destBool s = .ok (destBool, ⟨s.data, s.pos + n⟩)
      ∧ varintSliceDecodeTo destI s = .ok (destI, ⟨s.data, s.pos + n⟩)
      ∧ varuintSliceDecodeTo destU s = .ok (destU, ⟨s.data, s.pos + n⟩)
      ∧ sliceOfPtrDecodeTo pElemDec pZero destP s = .ok (destP, ⟨s.data, s.pos + n⟩) := by
  intro α β elemDec zero pElemDec pZero destG destB destBool destI destU destP s n h
  have hr : readUvarint s = .ok (0, ⟨s.data, s.pos + n⟩) := by
    unfold readUvarint
    rw [h]
  refine ⟨?_, ?_, ?_, ?_, ?_, ?_⟩
  · unfold reflectSliceDecodeTo
    rw [hr]
    simp
  · unfold byteSliceDecodeTo
    rw [hr]
    simp
  · unfold boolSliceDecodeTo
    rw [hr]
    simp
  · unfold varintSliceDecodeTo
    rw [hr]
    simp
  · unfold varuintSliceDecodeTo
    rw [hr]
    simp
  · unfold sliceOfPtrDecodeTo
    rw [hr]
    simp

/-- C10 witness: the six codecs at a concrete buffer whose next byte is
the zero length, with nil destinations. -/
theorem c10_zero_length_slice_decode_witness :
    reflectSliceDecodeTo (fun (a : Nat) s => .ok (a, s)) 0 none ⟨[0, 7], 0⟩
      = .ok (none, ⟨[0, 7], 1⟩)
    ∧ byteSliceDecodeTo none ⟨[0, 7], 0⟩ = .ok (none, ⟨[0, 7], 1⟩)
    ∧ boolSliceDecodeTo none ⟨[0, 7], 0⟩ = .ok (none, ⟨[0, 7], 1⟩)
    ∧ varintSliceDecodeTo none ⟨[0, 7], 0⟩ = .ok (none, ⟨[0, 7], 1⟩)
    ∧ varuintSliceDecodeTo none ⟨[0, 7], 0⟩ = .ok (none, ⟨[0, 7], 1⟩)
    ∧ sliceOfPtrDecodeTo (fun (a : Nat) s => .ok (a, s)) 0 none ⟨[0, 7], 0⟩
      = .ok (none, ⟨[0, 7], 1⟩) :=
  c10_zero_length_slice_decode (fun (a : Nat) s => .ok (a, s)) 0
    (fun (a : Nat) s => .ok (a, s)) 0 none none none none none none ⟨[0, 7], 0⟩ 1 (by rfl)

mutual
/-- Helper: registration succeeds when every struct on the walked chain
sits within the depth budget. -/
theorem analyzeStruct_ok_of_le (maxD : Nat) (t : Ty) :
    ∀ (d : Nat) (st : List stObject), t.kind = .ofStruct → d + structDepth t ≤ maxD + 1 →
      ∃ st2, analyzeStruct maxD t d st = .ok st2 := by
  intro d st hk hle
  cases t with
  | prim k => exact absurd hk (by simp [Ty.kind])
  | strct sid nm fields =>
    have hd : ¬ (d > maxD) := by
      simp [structDepth] at hle
      omega
    by_cases hdup : st.any (fun o => o.stID == sid)
    · exact ⟨st, by rw [analyzeStruct, if_neg hd, if_pos hdup]⟩
    · obtain ⟨r, hr⟩ := analyzeFlds_ok_of_le maxD fields d st []
        (by simp [structDepth] at hle; omega)
      exact ⟨r.1 ++ [⟨sid, nm, r.2⟩], by rw [analyzeStruct, if_neg hd, if_neg hdup, hr]⟩

/-- Helper: the field walk succeeds when every struct field fits in the
remaining depth budget. -/
theorem analyzeFlds_ok_of_le (maxD : Nat) (f : Flds) :
    ∀ (d : Nat) (st : List stObject) (acc : List stField), d + fldsDepth f ≤ maxD →
      ∃ r, analyzeFlds maxD f d st acc = .ok r := by
  intro d st acc hle
  cases f with
  | nil => exact ⟨(st, acc), rfl⟩
  | cons nm fty rest =>
    cases fty with
    | prim k =>
      obtain ⟨r, hr⟩ := analyzeFlds_ok_of_le maxD rest d st (acc ++ [⟨nm, Ty.kind (.prim k)⟩])
        (by simp [fldsDepth] at hle; omega)
      exact ⟨r, by rw [analyzeFlds]; exact hr⟩
    | strct sid2 nm2 f2 =>
      obtain ⟨st2, hs⟩ := analyzeStruct_ok_of_le maxD (.strct sid2 nm2 f2) (d + 1) st rfl
        (by simp [fldsDepth, structDepth] at hle ⊢; omega)
      obtain ⟨r, hr⟩ := analyzeFlds_ok_of_le maxD rest d st2
        (acc ++ [⟨nm, Ty.kind (.strct sid2 nm2 f2)⟩]) (by simp [fldsDepth] at hle; omega)
      exact ⟨r, by rw [analyzeFlds, hs]; exact hr⟩
end

mutual
/-- Helper: registration only adds descriptors whose StructID occurs in
the registered type. -/
theorem analyzeStruct_subset (maxD : Nat) (t : Ty) :
    ∀ d st st2, analyzeStruct maxD t d st = .ok st2 →
      ∀ o ∈ st2, o ∈ st ∨ o.stID ∈ sidsOf t := by
  intro d st st2 h o ho
  cases t with
  | prim k =>
    rw [analyzeStruct] at h
    split_ifs at h
  | strct sid nm fields =>
    rw [analyzeStruct] at h
    by_cases hd : d > maxD
    · rw [if_pos hd] at h
      cases h
    · rw [if_neg hd] at h
      by_cases hdup : st.any (fun o => o.stID == sid)
      · rw [if_pos hdup] at h
        cases h
        exact Or.inl ho
      · rw [if_neg hdup] at h
        cases hf : analyzeFlds maxD fields d st [] with
        | error e => rw [hf] at h; cases h
        | ok r =>
          rw [hf] at h
          cases h
          rcases List.mem_append.mp ho with hmem | hmem
          · rcases analyzeFlds_subset maxD fields d st [] r hf o hmem with hin | hin
            · exact Or.inl hin
            · exact Or.inr (by simp [sidsOf]; exact Or.inr hin)
          · simp at hmem
            subst hmem
            exact Or.inr (by simp [sidsOf])

/-- Helper: the field walk only adds descriptors whose StructID occurs
in one of the fields. -/
theorem analyzeFlds_subset (maxD : Nat) (f : Flds) :
    ∀ d st acc r, analyzeFlds maxD f d st acc = .ok r →
      ∀ o ∈ r.1, o ∈ st ∨ o.stID ∈ sidsOfF f := by
  intro d st acc r h o ho
  cases f with
  | nil =>
    rw [analyzeFlds] at h
    cases h
    exact Or.inl ho
  | cons nm fty rest =>
    cases fty with
    | prim k =>
      rw [analyzeFlds] at h
      rcases analyzeFlds_subset maxD rest d st _ r h o ho with hin | hin
      · exact Or.inl hin
      · exact Or.inr (by simp [sidsOfF, sidsOf]; exact hin)
    | strct sid2 nm2 f2 =>
      rw [analyzeFlds] at h
      cases hs : analyzeStruct maxD (.strct sid2 nm2 f2) (d + 1) st with
      | error e => rw [hs] at h; cases h
      | ok stM =>
        rw [hs] at h
        rcases analyzeFlds_subset maxD rest d stM _ r h o ho with hin | hin
        · rcases analyzeStruct_subset maxD (.strct sid2 nm2 f2) (d + 1) st stM hs o hin with
            h2 | h2
          · exact Or.inl h2
          · exact Or.inr (by simp [sidsOfF]; exact Or.inl (by simpa using h2))
        · exact Or.inr (by simp [sidsOfF]; exact Or.inr hin)
end

mutual
/-- Helper: with all StructIDs fresh and distinct, a struct whose chain
exceeds the budget makes registration fail with the depth error. -/
theorem analyzeStruct_depth_err (maxD : Nat) (t : Ty) :
    ∀ d st, t.kind = .ofStruct → (sidsOf t).Nodup →
      (∀ o ∈ st, o.stID ∉ sidsOf t) → maxD + 1 < d + structDepth t →
      analyzeStruct maxD t d st = .error .maxDepthExceeded := by
  intro d st hk hnd hst hgt
  cases t with
  | prim k => exact absurd hk (by simp [Ty.kind])
  | strct sid nm fields =>
    rw [analyzeStruct]
    by_cases hd : d > maxD
    · rw [if_pos hd]
    · rw [if_neg hd]
      have hany : ¬ (st.any (fun o => o.stID == sid) = true) := by
        simp only [List.any_eq_true, beq_iff_eq, not_exists, not_and]
        intro o hmem hid
        have hni := hst o hmem
        rw [hid] at hni
        exact hni (by simp [sidsOf])
      rw [if_neg hany]
      rw [analyzeFlds_depth_err maxD fields d st []
        (by have := hnd; simp [sidsOf] at this; exact this.2)
        (fun o ho => by
          have := hst o ho
          simp [sidsOf] at this
          intro hc
          exact this.2 hc)
        (by simp [structDepth] at hgt; omega)
        (by omega)]

/-- Helper: the field-walk counterpart of the depth-error lemma. -/
theorem analyzeFlds_depth_err (maxD : Nat) (f : Flds) :
    ∀ d st acc, (sidsOfF f).Nodup → (∀ o ∈ st, o.stID ∉ sidsOfF f) →
      maxD < d + fldsDepth f → d ≤ maxD →
      analyzeFlds maxD f d st acc = .error .maxDepthExceeded := by
  intro d st acc hnd hst hgt hdle
  cases f with
  | nil =>
    simp [fldsDepth] at hgt
    omega
  | cons nm fty rest =>
    cases fty with
    | prim k =>
      rw [analyzeFlds]
      exact analyzeFlds_depth_err maxD rest d st _
        (by simpa [sidsOfF, sidsOf] using hnd)
        (fun o ho => by
          have := hst o ho
          simpa [sidsOfF, sidsOf] using this)
        (by simp [fldsDepth, structDepth] at hgt; omega) hdle
    | strct sid2 nm2 f2 =>
      have hndf : (sidsOf (Ty.strct sid2 nm2 f2)).Nodup := by
        rw [sidsOfF, List.nodup_append] at hnd
        exact hnd.1
      have hndr : (sidsOfF rest).Nodup := by
        rw [sidsOfF, List.nodup_append] at hnd
        exact hnd.2.1
      have hdisj : (sidsOf (Ty.strct sid2 nm2 f2)).Disjoint (sidsOfF rest) := by
        rw [sidsOfF, List.nodup_append] at hnd
        exact hnd.2.2
      by_cases hex : maxD + 1 < (d + 1) + structDepth (Ty.strct sid2 nm2 f2)
      · rw [analyzeFlds]
        rw [analyzeStruct_depth_err maxD (.strct sid2 nm2 f2) (d + 1) st rfl hndf
          (fun o ho => by
            have := hst o ho
            rw [sidsOfF] at this
            intro hc
            exact this (List.mem_append_left _ hc)) hex]
      · obtain ⟨stM, hsM⟩ := analyzeStruct_ok_of_le maxD (.strct sid2 nm2 f2) (d + 1) st rfl
          (by omega)
        have hrest : maxD < d + fldsDepth rest := by
          have hm : maxD < d + max (structDepth (Ty.strct sid2 nm2 f2)) (fldsDepth rest) := by
            simpa [fldsDepth] using hgt
          rcases le_or_lt (d + fldsDepth rest) maxD with hr | hr
          · exfalso
            have h1 : d + structDepth (Ty.strct sid2 nm2 f2) ≤ maxD := by omega
            have h2 : d + max (structDepth (Ty.strct sid2 nm2 f2)) (fldsDepth rest) ≤ maxD := by
              have := Nat.max_le.mpr ⟨Nat.le_sub_of_add_le' h1, Nat.le_sub_of_add_le' hr⟩
              omega
            omega
          · exact hr
        rw [analyzeFlds, hsM]
        exact analyzeFlds_depth_err maxD rest d stM _ hndr
          (fun o ho => by
            rcases analyzeStruct_subset maxD (.strct sid2 nm2 f2) (d + 1) st stM hsM o ho with
              hin | hin
            · have := hst o hin
              rw [sidsOfF] at this
              intro hc
              exact this (List.mem_append_right _ hc)
            · exact fun hc => hdisj hin hc)
          hrest hdle
end

/-- C8 amended. On a fresh engine, for a struct type whose StructIDs
are pairwise distinct (so the idempotence skip of analyzeStruct never
fires, as it does in the counterexample), AddStructs fails with the
depth error exactly when the struct-nesting depth exceeds MaxDepth, and
succeeds otherwise; an engine built without a config has MaxDepth 8. -/
theorem c8_depth_limit_amended :
    ∀ (m sid : Nat) (nm : String) (f : Flds),
      (sidsOf (Ty.strct sid nm f)).Nodup →
      ((structDepth (Ty.strct sid nm f) ≤ m →
          isOkB (addStructs ⟨m, []⟩ [Ty.strct sid nm f]) = true)
       ∧ (m < structDepth (Ty.strct sid nm f) →
          addStructs ⟨m, []⟩ [Ty.strct sid nm f] = .error .maxDepthExceeded))
      ∧ (newTB none).maxDepth = 8 := by
  intro m sid nm f hnd
  refine ⟨⟨?_, ?_⟩, rfl⟩
  · intro hle
    obtain ⟨st2, h⟩ := analyzeStruct_ok_of_le m (.strct sid nm f) 1 [] rfl (by omega)
    rw [addStructs, h]
    rfl
  · intro hgt
    have h := analyzeStruct_depth_err m (.strct sid nm f) 1 [] rfl hnd (by simp) (by omega)
    rw [addStructs, h]

/-- C8 amended witness: a three-deep chain of distinct structs fails on
an engine with MaxDepth 2 and succeeds with MaxDepth 3. -/
theorem c8_depth_limit_amended_witness :
    addStructs ⟨2, []⟩ [tyChain 3] = .error .maxDepthExceeded
    ∧ isOkB (addStructs ⟨3, []⟩ [tyChain 3]) = true
    ∧ (newTB none).maxDepth = 8 := by
  have h2 := c8_depth_limit_amended 2 3 "T" (.cons "f" (tyChain 2) .nil) (by decide)
  have h3 := c8_depth_limit_amended 3 3 "T" (.cons "f" (tyChain 2) .nil) (by decide)
  exact ⟨h2.1.2 (by decide), h3.1.1 (by decide), h3.2⟩

end TinyBin
